import Mathlib

/-!
Verification development for the face-clock application
(`src/contexts/EmployeeContext.tsx`, `src/pages/TimeClock`/`TimeHistory`,
`src/types/employee.ts`).

Modelling conventions:
* JavaScript numbers are idealised as exact rationals (`ℚ`).
* Every distance comparison in the source has the shape `sqrt a < sqrt b`
  or `sqrt a < threshold` with `a, b ≥ 0` and `threshold ≥ 0`; since
  `sqrt` is strictly monotone on nonnegatives, the control flow is fully
  determined by the squared values.  We therefore carry squared distances
  (staying inside `ℚ`, hence executable); a threshold `t ≥ 0` becomes
  `t * t`.
* The local `euclideanDistance(arr1, arr2)` loops over `arr1` indexing
  `arr2`; when `arr1` is longer, `arr2[i]` is `undefined`, the sum is
  `NaN`, and every comparison against `NaN` is false.  We model the
  squared sum as `Option ℚ` with `none` for the `NaN` outcome.
* `faceapi.euclideanDistance` throws when the lengths differ; we model it
  with `Except`.
-/

namespace FaceClock

/- Batteries marks the `Rat` field operations `@[irreducible]`, which
blocks `decide`-style evaluation of the model on concrete inputs; restore
the default reducibility locally (the kernel is unaffected either way). -/
attribute [local semireducible] Rat.add Rat.mul Rat.sub Rat.inv

/-- Source `src/types/employee.ts`, `Employee` (dates idealised as rationals). -/
structure Employee where
  id : String
  name : String
  role : String
  department : Option String
  faceDescriptor : List ℚ
  photoUrl : Option String
  createdAt : ℚ
deriving DecidableEq

/-- Source `src/types/employee.ts`, record type `'entrada' | 'saida'`. -/
inductive RType where
  | entrada
  | saida
deriving DecidableEq

/-- Source `src/types/employee.ts`, `TimeRecord`. -/
structure TimeRecord where
  id : String
  employeeId : String
  employeeName : String
  type : RType
  timestamp : ℚ
  photoUrl : Option String
deriving DecidableEq

instance {ε α : Type} [DecidableEq ε] [DecidableEq α] : DecidableEq (Except ε α)
  | .ok a, .ok b =>
    if h : a = b then .isTrue (by rw [h]) else .isFalse (fun hh => absurd (Except.ok.inj hh) h)
  | .error a, .error b =>
    if h : a = b then .isTrue (by rw [h]) else .isFalse (fun hh => absurd (Except.error.inj hh) h)
  | .ok _, .error _ => .isFalse (fun hh => nomatch hh)
  | .error _, .ok _ => .isFalse (fun hh => nomatch hh)

/-- Sum of squared component differences over the common prefix
(`zip` truncates at the shorter list, matching a loop bounded by the
first argument whenever the first argument is not longer). -/
def sumSqDiff (a b : List ℚ) : ℚ :=
  ((a.zip b).map (fun p => (p.1 - p.2) * (p.1 - p.2))).sum

/-- Source `EmployeeContext.tsx` lines 77–83, `euclideanDistance(arr1, arr2)`,
carried squared.  The loop runs over `arr1`; if `arr1` is longer than
`arr2` the JS code reads `undefined`, producing a `NaN` sum, modelled as
`none`.  Otherwise the result is the (squared) sum over `arr1.length`
terms. -/
def euclideanDistanceSq : List ℚ → List ℚ → Option ℚ
  | [], _ => some 0
  | _ :: _, [] => none
  | a :: as, b :: bs => (euclideanDistanceSq as bs).map (fun s => (a - b) * (a - b) + s)

/-- Library `face-api.js` `euclideanDistance`, carried squared: throws when the
two arrays have different lengths, otherwise returns the distance. -/
def faceapiEuclideanDistanceSq (arr1 arr2 : List ℚ) : Except String ℚ :=
  if arr1.length = arr2.length then .ok (sumSqDiff arr1 arr2)
  else .error ("euclideanDistance: arr1.length !== arr2.length")

/-- Loop body of `EmployeeContext.tsx` `findEmployeeByFace`
(lines 89–95): scan the registry keeping the best (smallest-distance)
match so far; a `NaN` distance (`none`) fails the `<` test and the entry
is skipped silently. -/
def findFaceAux (descriptor : List ℚ) : List Employee → Option Employee → ℚ → Option Employee
  | [], best, _ => best
  | e :: rest, best, bestSq =>
    match euclideanDistanceSq e.faceDescriptor descriptor with
    | none => findFaceAux descriptor rest best bestSq
    | some d =>
      if d < bestSq then findFaceAux descriptor rest (some e) d
      else findFaceAux descriptor rest best bestSq

/-- Source `EmployeeContext.tsx` lines 85–98, `findEmployeeByFace(descriptor,
threshold = 0.6)`: `bestDistance` starts at `threshold` (squared here)
and the best strictly-improving entry is returned. -/
def findEmployeeByFace (employees : List Employee) (descriptor : List ℚ)
    (threshold : ℚ := 3/5) : Option Employee :=
  findFaceAux descriptor employees none (threshold * threshold)

/-- Loop body of the supabase `findEmployeeByFace` (`unnamed/part_003`
lines 202–209): keep `{employee, distance}` when
`distance < THRESHOLD && (!bestMatch || distance < bestMatch.distance)`;
the library distance call throws on a length mismatch. -/
def findFaceDAux (descriptor : List ℚ) :
    List Employee → Option (Employee × ℚ) → Except String (Option (Employee × ℚ))
  | [], best => .ok best
  | e :: rest, best =>
    match faceapiEuclideanDistanceSq descriptor e.faceDescriptor with
    | .error msg => .error msg
    | .ok d =>
      match best with
      | none =>
        if d < (3/5 : ℚ) * (3/5 : ℚ) then findFaceDAux descriptor rest (some (e, d))
        else findFaceDAux descriptor rest none
      | some b =>
        if d < (3/5 : ℚ) * (3/5 : ℚ) ∧ d < b.2 then findFaceDAux descriptor rest (some (e, d))
        else findFaceDAux descriptor rest (some b)

/-- Source `unnamed/part_003` lines 193–212, `findEmployeeByFace(descriptor)`:
empty registry returns `null` at once; otherwise scan with the fixed
`THRESHOLD = 0.6`, returning `{employee, distance}` or `null`. -/
def findEmployeeByFaceD (employees : List Employee) (descriptor : List ℚ) :
    Except String (Option (Employee × ℚ)) :=
  if employees.length = 0 then .ok none
  else findFaceDAux descriptor employees none

/-- Sample registry entry used in concrete evaluations. -/
def empA : Employee :=
  ⟨"e1", "Alice", "staff", none, [0, 0], none, 0⟩

/-- Second sample registry entry, far from `empA`. -/
def empB : Employee :=
  ⟨"e2", "Bruno", "staff", none, [10, 10], none, 0⟩

example : findEmployeeByFace [empA] [0, 0] (3/5) = some empA := by decide
example : findEmployeeByFace [empA] [1, 1] (3/5) = none := by decide
example : findEmployeeByFace [] [0, 0] (3/5) = none := by decide
example : findEmployeeByFaceD [empA, empB] [10, 10] = .ok (some (empB, 0)) := by decide
example : findEmployeeByFaceD [] [0, 0] = .ok none := by decide

theorem euclideanDistanceSq_of_le :
    ∀ (a b : List ℚ), a.length ≤ b.length → euclideanDistanceSq a b = some (sumSqDiff a b)
  | [], _, _ => by simp [euclideanDistanceSq, sumSqDiff]
  | _ :: _, [], h => by simp at h
  | a :: as, b :: bs, h => by
    have ih := euclideanDistanceSq_of_le as bs (by simpa using h)
    simp [euclideanDistanceSq, ih, sumSqDiff]

theorem sumSqDiff_comm : ∀ (a b : List ℚ), a.length = b.length → sumSqDiff a b = sumSqDiff b a
  | [], [], _ => rfl
  | _ :: _, [], h => by simp at h
  | [], _ :: _, h => by simp at h
  | a :: as, b :: bs, h => by
    have ih := sumSqDiff_comm as bs (by simpa using h)
    simp only [sumSqDiff, List.zip_cons_cons, List.map_cons, List.sum_cons] at ih ⊢
    rw [ih]; ring_nf

/-- The registry scan of `findEmployeeByFace` returns either the running
best unchanged (no entry beats the current bound) or an entry realising
the minimum comparable distance, strictly below the bound. -/
theorem findFaceAux_spec (descriptor : List ℚ) (l : List Employee) :
    ∀ (best : Option Employee) (bestSq : ℚ),
      (findFaceAux descriptor l best bestSq = best ∧
        ∀ e ∈ l, ∀ v, euclideanDistanceSq e.faceDescriptor descriptor = some v → bestSq ≤ v) ∨
      (∃ e ∈ l, ∃ v, euclideanDistanceSq e.faceDescriptor descriptor = some v ∧
        findFaceAux descriptor l best bestSq = some e ∧ v < bestSq ∧
        ∀ e' ∈ l, ∀ v', euclideanDistanceSq e'.faceDescriptor descriptor = some v' → v ≤ v') := by
  induction l with
  | nil =>
    intro best bestSq
    exact .inl ⟨rfl, by simp⟩
  | cons e rest ih =>
    intro best bestSq
    simp only [findFaceAux]
    cases hda : euclideanDistanceSq e.faceDescriptor descriptor with
    | none =>
      rcases ih best bestSq with ⟨heq, hmin⟩ | ⟨e2, he2, v2, hv2, heq, hlt, hmin⟩
      · refine .inl ⟨heq, ?_⟩
        intro x hx v hv
        rcases List.mem_cons.mp hx with rfl | hx
        · rw [hda] at hv; exact absurd hv (by simp)
        · exact hmin x hx v hv
      · refine .inr ⟨e2, List.mem_cons_of_mem _ he2, v2, hv2, heq, hlt, ?_⟩
        intro x hx v hv
        rcases List.mem_cons.mp hx with rfl | hx
        · rw [hda] at hv; exact absurd hv (by simp)
        · exact hmin x hx v hv
    | some d =>
      dsimp only
      by_cases hd : d < bestSq
      · rw [if_pos hd]
        rcases ih (some e) d with ⟨heq, hmin⟩ | ⟨e2, he2, v2, hv2, heq, hlt, hmin⟩
        · refine .inr ⟨e, List.mem_cons_self _ _, d, hda, heq, hd, ?_⟩
          intro x hx v hv
          rcases List.mem_cons.mp hx with rfl | hx
          · rw [hda] at hv; exact le_of_eq (Option.some.inj hv)
          · exact hmin x hx v hv
        · refine .inr ⟨e2, List.mem_cons_of_mem _ he2, v2, hv2, heq, hlt.trans hd, ?_⟩
          intro x hx v hv
          rcases List.mem_cons.mp hx with rfl | hx
          · rw [hda] at hv; exact (Option.some.inj hv) ▸ hlt.le
          · exact hmin x hx v hv
      · rw [if_neg hd]
        rcases ih best bestSq with ⟨heq, hmin⟩ | ⟨e2, he2, v2, hv2, heq, hlt, hmin⟩
        · refine .inl ⟨heq, ?_⟩
          intro x hx v hv
          rcases List.mem_cons.mp hx with rfl | hx
          · rw [hda] at hv; exact (Option.some.inj hv) ▸ not_lt.mp hd
          · exact hmin x hx v hv
        · refine .inr ⟨e2, List.mem_cons_of_mem _ he2, v2, hv2, heq, hlt, ?_⟩
          intro x hx v hv
          rcases List.mem_cons.mp hx with rfl | hx
          · rw [hda] at hv; exact (Option.some.inj hv) ▸ (hlt.le.trans (not_lt.mp hd))
          · exact hmin x hx v hv

/-- Raising the initial bound of the registry scan never loses a match:
the two runs stay related by the invariant "synchronised, or the smaller
run still has no candidate". -/
theorem findFaceAux_mono (descriptor : List ℚ) (l : List Employee) :
    ∀ (b1 b2 : Option Employee) (s1 s2 : ℚ) (x : Employee),
      s1 ≤ s2 → (b1 = b2 ∧ s1 = s2 ∨ b1 = none) →
      findFaceAux descriptor l b1 s1 = some x → findFaceAux descriptor l b2 s2 = some x := by
  induction l with
  | nil =>
    intro b1 b2 s1 s2 x _ hinv h
    simp only [findFaceAux] at h ⊢
    rcases hinv with ⟨rfl, _⟩ | rfl
    · exact h
    · exact absurd h (by simp)
  | cons e rest ih =>
    intro b1 b2 s1 s2 x hs hinv h
    simp only [findFaceAux] at h ⊢
    cases hda : euclideanDistanceSq e.faceDescriptor descriptor with
    | none =>
      rw [hda] at h
      exact ih b1 b2 s1 s2 x hs hinv h
    | some d =>
      rw [hda] at h
      dsimp only at h ⊢
      by_cases h1 : d < s1
      · rw [if_pos h1] at h
        rw [if_pos (lt_of_lt_of_le h1 hs)]
        exact ih (some e) (some e) d d x le_rfl (.inl ⟨rfl, rfl⟩) h
      · rw [if_neg h1] at h
        by_cases h2 : d < s2
        · have hb1 : b1 = none := by
            rcases hinv with ⟨rfl, rfl⟩ | hb
            · exact absurd h2 h1
            · exact hb
          rw [if_pos h2]
          exact ih b1 (some e) s1 d x (not_lt.mp h1) (.inr hb1) h
        · rw [if_neg h2]
          exact ih b1 b2 s1 s2 x hs hinv h

/-- C7: threshold monotonicity of `findEmployeeByFace` — if resolution
with positive threshold `t1` returns a match, resolution with any larger
threshold `t2` returns the same match (same identity, hence the same
distance to the live embedding). -/
theorem threshold_mono (employees : List Employee) (descriptor : List ℚ)
    (t1 t2 : ℚ) (x : Employee) (h1 : 0 < t1) (h12 : t1 < t2)
    (hm : findEmployeeByFace employees descriptor t1 = some x) :
    findEmployeeByFace employees descriptor t2 = some x :=
  findFaceAux_mono descriptor employees none none (t1 * t1) (t2 * t2) x
    (mul_le_mul h12.le h12.le h1.le (h1.le.trans h12.le)) (.inr rfl) hm

theorem threshold_mono_witness :
    (0 : ℚ) < 1/2 ∧ (1/2 : ℚ) < 1 ∧ findEmployeeByFace [empA] [0, 0] 1 = some empA :=
  ⟨by decide, by decide,
    threshold_mono [empA] [0, 0] (1/2) 1 empA (by decide) (by decide) (by decide)⟩

theorem faceapiEuclideanDistanceSq_ok (a b : List ℚ) (h : a.length = b.length) :
    faceapiEuclideanDistanceSq a b = .ok (sumSqDiff a b) := by
  simp [faceapiEuclideanDistanceSq, h]

/-- Current effective bound of the supabase registry scan: the fixed
threshold while no candidate is held, the candidate's distance after. -/
def dBound : Option (Employee × ℚ) → ℚ
  | none => (3/5 : ℚ) * (3/5)
  | some b => b.2

/-- The supabase registry scan (all dimensions matching) returns either
the running best unchanged or an entry realising the minimum distance,
paired with exactly that distance. -/
theorem findFaceDAux_spec (descriptor : List ℚ) (l : List Employee) :
    ∀ (best : Option (Employee × ℚ)),
      (∀ e ∈ l, e.faceDescriptor.length = descriptor.length) →
      (∀ b, best = some b → b.2 < (3/5 : ℚ) * (3/5)) →
      (findFaceDAux descriptor l best = .ok best ∧
        ∀ e ∈ l, dBound best ≤ sumSqDiff descriptor e.faceDescriptor) ∨
      (∃ e ∈ l, findFaceDAux descriptor l best =
          .ok (some (e, sumSqDiff descriptor e.faceDescriptor)) ∧
        sumSqDiff descriptor e.faceDescriptor < dBound best ∧
        ∀ e' ∈ l, sumSqDiff descriptor e.faceDescriptor ≤ sumSqDiff descriptor e'.faceDescriptor) := by
  induction l with
  | nil =>
    intro best _ _
    exact .inl ⟨rfl, by simp⟩
  | cons e rest ih =>
    intro best hlen hinv
    have hlenr : ∀ x ∈ rest, x.faceDescriptor.length = descriptor.length :=
      fun x hx => hlen x (List.mem_cons_of_mem _ hx)
    have hfe : faceapiEuclideanDistanceSq descriptor e.faceDescriptor =
        .ok (sumSqDiff descriptor e.faceDescriptor) :=
      faceapiEuclideanDistanceSq_ok _ _ (hlen e (List.mem_cons_self _ _)).symm
    simp only [findFaceDAux, hfe]
    cases best with
    | none =>
      dsimp only
      by_cases hc : sumSqDiff descriptor e.faceDescriptor < (3/5 : ℚ) * (3/5)
      · rw [if_pos hc]
        have hinv2 : ∀ b, some (e, sumSqDiff descriptor e.faceDescriptor) = some b →
            b.2 < (3/5 : ℚ) * (3/5) := by
          intro b hb
          rw [← Option.some.inj hb]
          exact hc
        rcases ih _ hlenr hinv2 with ⟨heq, hmin⟩ | ⟨e2, he2, heq, hlt, hmin⟩
        · refine .inr ⟨e, List.mem_cons_self _ _, heq, hc, ?_⟩
          intro x hx
          rcases List.mem_cons.mp hx with rfl | hx
          · exact le_rfl
          · exact hmin x hx
        · refine .inr ⟨e2, List.mem_cons_of_mem _ he2, heq, hlt.trans hc, ?_⟩
          intro x hx
          rcases List.mem_cons.mp hx with rfl | hx
          · exact hlt.le
          · exact hmin x hx
      · rw [if_neg hc]
        rcases ih none hlenr (by simp) with ⟨heq, hmin⟩ | ⟨e2, he2, heq, hlt, hmin⟩
        · refine .inl ⟨heq, ?_⟩
          intro x hx
          rcases List.mem_cons.mp hx with rfl | hx
          · exact not_lt.mp hc
          · exact hmin x hx
        · refine .inr ⟨e2, List.mem_cons_of_mem _ he2, heq, hlt, ?_⟩
          intro x hx
          rcases List.mem_cons.mp hx with rfl | hx
          · exact hlt.le.trans (not_lt.mp hc)
          · exact hmin x hx
    | some b =>
      dsimp only
      have hbthr : b.2 < (3/5 : ℚ) * (3/5) := hinv b rfl
      by_cases hc : sumSqDiff descriptor e.faceDescriptor < b.2
      · rw [if_pos ⟨hc.trans hbthr, hc⟩]
        have hinv2 : ∀ b', some (e, sumSqDiff descriptor e.faceDescriptor) = some b' →
            b'.2 < (3/5 : ℚ) * (3/5) := by
          intro b' hb'
          rw [← Option.some.inj hb']
          exact hc.trans hbthr
        rcases ih _ hlenr hinv2 with ⟨heq, hmin⟩ | ⟨e2, he2, heq, hlt, hmin⟩
        · refine .inr ⟨e, List.mem_cons_self _ _, heq, hc, ?_⟩
          intro x hx
          rcases List.mem_cons.mp hx with rfl | hx
          · exact le_rfl
          · exact hmin x hx
        · refine .inr ⟨e2, List.mem_cons_of_mem _ he2, heq, hlt.trans hc, ?_⟩
          intro x hx
          rcases List.mem_cons.mp hx with rfl | hx
          · exact hlt.le
          · exact hmin x hx
      · rw [if_neg (fun hcc => hc hcc.2)]
        rcases ih (some b) hlenr hinv with ⟨heq, hmin⟩ | ⟨e2, he2, heq, hlt, hmin⟩
        · refine .inl ⟨heq, ?_⟩
          intro x hx
          rcases List.mem_cons.mp hx with rfl | hx
          · exact not_lt.mp hc
          · exact hmin x hx
        · refine .inr ⟨e2, List.mem_cons_of_mem _ he2, heq, hlt, ?_⟩
          intro x hx
          rcases List.mem_cons.mp hx with rfl | hx
          · exact hlt.le.trans (not_lt.mp hc)
          · exact hmin x hx

/-- C1: with matching dimensions and a positive threshold, both
`findEmployeeByFace` implementations return an entry of minimum
Euclidean distance exactly when that minimum is strictly below the
threshold (the supabase variant also returning that distance), and
return no match otherwise; the empty registry gives no match and no
error.  Distances are carried squared (`sumSqDiff`); comparing them to
the squared threshold is equivalent to comparing the Euclidean distances
to the threshold. -/
theorem findEmployeeByFace_min (employees : List Employee) (descriptor : List ℚ)
    (threshold : ℚ)
    (hlen : ∀ e ∈ employees, e.faceDescriptor.length = descriptor.length)
    (hth : 0 < threshold) :
    ((∃ e, findEmployeeByFace employees descriptor threshold = some e ∧ e ∈ employees ∧
        sumSqDiff e.faceDescriptor descriptor < threshold * threshold ∧
        ∀ e' ∈ employees,
          sumSqDiff e.faceDescriptor descriptor ≤ sumSqDiff e'.faceDescriptor descriptor) ∨
      (findEmployeeByFace employees descriptor threshold = none ∧
        ∀ e ∈ employees, threshold * threshold ≤ sumSqDiff e.faceDescriptor descriptor)) ∧
    ((∃ e, findEmployeeByFaceD employees descriptor =
          .ok (some (e, sumSqDiff descriptor e.faceDescriptor)) ∧ e ∈ employees ∧
        sumSqDiff descriptor e.faceDescriptor < (3/5 : ℚ) * (3/5) ∧
        ∀ e' ∈ employees,
          sumSqDiff descriptor e.faceDescriptor ≤ sumSqDiff descriptor e'.faceDescriptor) ∨
      (findEmployeeByFaceD employees descriptor = .ok none ∧
        ∀ e ∈ employees, (3/5 : ℚ) * (3/5) ≤ sumSqDiff descriptor e.faceDescriptor)) ∧
    findEmployeeByFace [] descriptor threshold = none ∧
    findEmployeeByFaceD [] descriptor = .ok none := by
  refine ⟨?_, ?_, rfl, rfl⟩
  · rcases findFaceAux_spec descriptor employees none (threshold * threshold) with
      ⟨heq, hmin⟩ | ⟨e, he, v, hv, heq, hlt, hmin⟩
    · refine .inr ⟨heq, ?_⟩
      intro e he
      exact hmin e he _ (euclideanDistanceSq_of_le _ _ (le_of_eq (hlen e he)))
    · have hv2 : v = sumSqDiff e.faceDescriptor descriptor := by
        rw [euclideanDistanceSq_of_le _ _ (le_of_eq (hlen e he))] at hv
        exact (Option.some.inj hv).symm
      subst hv2
      refine .inl ⟨e, heq, he, hlt, ?_⟩
      intro e' he'
      exact hmin e' he' _ (euclideanDistanceSq_of_le _ _ (le_of_eq (hlen e' he')))
  · cases employees with
    | nil => exact .inr ⟨rfl, by simp⟩
    | cons eh et =>
      have hne : ¬(eh :: et).length = 0 := by simp
      rcases findFaceDAux_spec descriptor (eh :: et) none hlen (by simp) with
        ⟨heq, hmin⟩ | ⟨e, he, heq, hlt, hmin⟩
      · refine .inr ⟨?_, hmin⟩
        simpa [findEmployeeByFaceD, hne] using heq
      · refine .inl ⟨e, ?_, he, hlt, hmin⟩
        simpa [findEmployeeByFaceD, hne] using heq

theorem findEmployeeByFace_min_witness :
    (∀ e ∈ [empA, empB], e.faceDescriptor.length = ([0, 0] : List ℚ).length) ∧
    ((0 : ℚ) < 3/5) ∧
    ((∃ e, findEmployeeByFace [empA, empB] [0, 0] (3/5) = some e ∧ e ∈ [empA, empB] ∧
        sumSqDiff e.faceDescriptor [0, 0] < (3/5 : ℚ) * (3/5) ∧
        ∀ e' ∈ [empA, empB],
          sumSqDiff e.faceDescriptor [0, 0] ≤ sumSqDiff e'.faceDescriptor [0, 0]) ∨
      (findEmployeeByFace [empA, empB] [0, 0] (3/5) = none ∧
        ∀ e ∈ [empA, empB], (3/5 : ℚ) * (3/5) ≤ sumSqDiff e.faceDescriptor [0, 0])) :=
  ⟨by decide, by decide,
    (findEmployeeByFace_min [empA, empB] [0, 0] (3/5) (by decide) (by decide)).1⟩

/-- Registry entry whose stored descriptor has three dimensions. -/
def empM3 : Employee :=
  ⟨"e1", "Alice", "staff", none, [0, 0, 0], none, 0⟩

/-- Registry entry whose stored descriptor has two dimensions. -/
def empM2 : Employee :=
  ⟨"e1", "Alice", "staff", none, [0, 0], none, 0⟩

/-- C2 (evaluation at the failing input): on an embedding dimension
mismatch, `EmployeeContext.tsx`'s `findEmployeeByFace` does not fail: a
longer stored descriptor produces a `NaN` distance and the entry is
silently skipped (the call reports an ordinary no-match), and a shorter
stored descriptor is silently compared on a truncated prefix (here
producing a spurious exact match).  Only the supabase variant (through
`face-api.js`) fails loudly. -/
theorem dimension_mismatch_silent :
    findEmployeeByFace [empM3] [0, 0] (3/5) = none ∧
    findEmployeeByFace [empM2] [0, 0, 5] (3/5) = some empM2 ∧
    findEmployeeByFaceD [empM3] [0, 0] =
      .error ("euclideanDistance: arr1.length !== arr2.length") := by
  exact ⟨by decide, by decide, by decide⟩

/-- A clock event recorded by `handleRegisterPoint` (the generated
`crypto.randomUUID()` id is omitted; employee id and name, type and
timestamp are kept). -/
structure ClockRecord where
  employeeId : String
  employeeName : String
  type : RType
  timestamp : ℚ
deriving DecidableEq

/-- State of the TimeClock page (`TimeHistory.tsx`, second document):
`cooldownRef`/its pending 3 s timer, `recognizedEmployee` (the stored
display-only `confidence = round((1 - √distance)·100)` is omitted),
`isProcessing` with its pending 2 s timer, and the recorded clock
events.  A pending timer is modelled by its absolute deadline;
`cooldownUntil` is meaningful only while `cooldownId` is set (setting a
new cooldown overwrites it, which matches the source's `clearTimeout`
before `setTimeout`). -/
structure ClockState where
  cooldownId : Option String
  cooldownUntil : ℚ
  recognized : Option Employee
  processingUntil : Option ℚ
  records : List ClockRecord
deriving DecidableEq

/-- Initial TimeClock state (`useRef(null)`, `useState(null)`,
`useState(false)`, no records). -/
def clockState0 : ClockState :=
  ⟨none, 0, none, none, []⟩

/-- Event-loop idealisation: before a handler runs at time `now`, every
timer whose deadline has passed has fired.  The 3 s cooldown timer sets
`cooldownRef.current = null`; the 2 s processing timer sets
`setIsProcessing(false)` and `setRecognizedEmployee(null)`. -/
def fireDueTimers (now : ℚ) (s : ClockState) : ClockState :=
  let s1 :=
    match s.cooldownId with
    | some _ => if s.cooldownUntil ≤ now then { s with cooldownId := none } else s
    | none => s
  match s1.processingUntil with
  | some dl => if dl ≤ now then { s1 with processingUntil := none, recognized := none } else s1
  | none => s1

/-- Source `TimeHistory.tsx` lines 169–217, `handleFaceDetected`: return early
while processing or with an empty registry; resolve the face; on a match
suppress it when the cooldown holds the same employee id, otherwise
(re)start the 3 s cooldown and fire the recognition callback
(`setRecognizedEmployee`); on no match clear the recognised state only
when no cooldown is active.  The returned flag records whether the
recognition callback fired. -/
def handleFaceDetected (employees : List Employee) (s0 : ClockState) (now : ℚ)
    (descriptor : List ℚ) : Except String (ClockState × Bool) :=
  let s := fireDueTimers now s0
  if s.processingUntil.isSome ∨ employees.length = 0 then .ok (s, false)
  else
    match findEmployeeByFaceD employees descriptor with
    | .error msg => .error msg
    | .ok none =>
      if s.cooldownId = none then .ok ({ s with recognized := none }, false)
      else .ok (s, false)
    | .ok (some (e, _)) =>
      if s.cooldownId = some e.id then .ok (s, false)
      else
        .ok ({ s with cooldownId := some e.id, cooldownUntil := now + 3000,
                      recognized := some e }, true)

/-- Source `TimeHistory.tsx` lines 219–245, `handleRegisterPoint`: no-op
without a recognised employee; otherwise set `isProcessing`, record the
clock event, clear the cooldown (consume), and schedule the 2 s timer
that ends processing and clears the recognised state. -/
def handleRegisterPoint (s0 : ClockState) (now : ℚ) (ty : RType) : ClockState :=
  let s := fireDueTimers now s0
  match s.recognized with
  | none => s
  | some emp =>
    { s with processingUntil := some (now + 2000),
             records := ⟨emp.id, emp.name, ty, now⟩ :: s.records,
             cooldownId := none }

/-- Run a sequence of timestamped detections, counting how many fired
the recognition callback. -/
def runDetections (employees : List Employee) :
    ClockState → List (ℚ × List ℚ) → Except String (ClockState × Nat)
  | s, [] => .ok (s, 0)
  | s, (now, d) :: rest =>
    match handleFaceDetected employees s now d with
    | .error msg => .error msg
    | .ok (s1, fired) =>
      match runDetections employees s1 rest with
      | .error msg => .error msg
      | .ok (sf, n) => .ok (sf, (if fired then 1 else 0) + n)

/-- Does the resolver map `descriptor` to the employee id `id`? -/
def resolvesTo (employees : List Employee) (descriptor : List ℚ) (id : String) : Bool :=
  match findEmployeeByFaceD employees descriptor with
  | .ok (some (e, _)) => e.id == id
  | _ => false

example : resolvesTo [empA, empB] [0, 0] "e1" = true := by decide
example : resolvesTo [empA, empB] [10, 10] "e2" = true := by decide
example : resolvesTo [empA, empB] [5, 5] "e1" = false := by decide

theorem fireDueTimers_idle (s : ClockState) (now : ℚ)
    (hcd : s.cooldownId = none) (hpr : s.processingUntil = none) :
    fireDueTimers now s = s := by
  simp [fireDueTimers, hcd, hpr]

theorem fireDueTimers_cooling (s : ClockState) (now : ℚ) (id : String)
    (hcd : s.cooldownId = some id) (hnow : now < s.cooldownUntil)
    (hpr : s.processingUntil = none) :
    fireDueTimers now s = s := by
  simp [fireDueTimers, hcd, hpr, not_le.mpr hnow]

theorem fireDueTimers_expired (s : ClockState) (now : ℚ) (id : String)
    (hcd : s.cooldownId = some id) (hexp : s.cooldownUntil ≤ now)
    (hpr : s.processingUntil = none) :
    fireDueTimers now s = { s with cooldownId := none } := by
  simp [fireDueTimers, hcd, hpr, hexp]

/-- Cooling state used in the concrete cooldown scenarios: cooling on
`empA` (id `e1`) with the 3 s timer due at `t = 3000`, `empA`
recognised, not processing, no records yet. -/
def sCool : ClockState :=
  ⟨some "e1", 3000, some empA, none, []⟩

/-- C3 counterexample: cooling on `e1` with expiry 3000, the resolver
returns `e1` again at `t = 4000 ≥ 3000`; the expiry timer has already
cleared the cooldown, so the recognition callback fires AGAIN
(`fired = true`) — it is not suppressed — and a fresh cooldown runs to
7000. -/
theorem expiry_refire_counterexample :
    handleFaceDetected [empA] sCool 4000 [0, 0] =
      .ok (⟨some "e1", 7000, some empA, none, []⟩, true) := by
  decide

/-- C3 (amended): if the resolver returns the cooling identity at or
after the cooldown's expiry time, the expiry timer has already cleared
the suppression, so the recognition callback fires again and a fresh 3 s
cooldown starts for that identity — no explicit consume is needed. -/
theorem same_id_after_expiry_refires
    (employees : List Employee) (s : ClockState) (now : ℚ) (d : List ℚ)
    (e : Employee) (dsq : ℚ)
    (hcd : s.cooldownId = some e.id) (hexp : s.cooldownUntil ≤ now)
    (hpr : s.processingUntil = none) (hne : employees ≠ [])
    (hfind : findEmployeeByFaceD employees d = .ok (some (e, dsq))) :
    handleFaceDetected employees s now d =
      .ok ({ s with cooldownId := some e.id, cooldownUntil := now + 3000,
                    recognized := some e }, true) := by
  have hft := fireDueTimers_expired s now e.id hcd hexp hpr
  have hg : ¬(({ s with cooldownId := none } : ClockState).processingUntil.isSome ∨
      employees.length = 0) := by
    simp [hpr, List.length_eq_zero, hne]
  simp only [handleFaceDetected, hft, if_neg hg, hfind]
  rw [if_neg (by simp)]

theorem same_id_after_expiry_refires_witness :
    handleFaceDetected [empA] sCool 3000 [0, 0] =
      .ok ({ sCool with cooldownId := some empA.id, cooldownUntil := 3000 + 3000,
                        recognized := some empA }, true) :=
  same_id_after_expiry_refires [empA] sCool 3000 [0, 0] empA 0
    (by decide) (by decide) (by decide) (by decide) (by decide)

/-- C4 counterexample: cooling on `e1` until 3000, the resolver returns
no match at `t = 1000`; the controller state is unchanged — in
particular the cooldown is still `e1`, not cleared to IDLE. -/
theorem no_match_keeps_cooldown_counterexample :
    handleFaceDetected [empA] sCool 1000 [10, 10] = .ok (sCool, false) ∧
    sCool.cooldownId ≠ none := by
  decide

/-- C4 (amended): while cooling, a no-match resolution leaves the
controller state entirely unchanged: the active cooldown is retained
(not cleared), and the `!cooldownRef.current` guard also keeps the
recognised state; only expiry or consume clears the cooldown. -/
theorem no_match_preserves_state
    (employees : List Employee) (s : ClockState) (now : ℚ) (d : List ℚ) (id : String)
    (hcd : s.cooldownId = some id) (hnow : now < s.cooldownUntil)
    (hpr : s.processingUntil = none) (hne : employees ≠ [])
    (hfind : findEmployeeByFaceD employees d = .ok none) :
    handleFaceDetected employees s now d = .ok (s, false) := by
  have hft := fireDueTimers_cooling s now id hcd hnow hpr
  have hg : ¬(s.processingUntil.isSome ∨ employees.length = 0) := by
    simp [hpr, List.length_eq_zero, hne]
  simp only [handleFaceDetected, hft, if_neg hg, hfind]
  rw [if_neg (by simp [hcd])]

theorem no_match_preserves_state_witness :
    handleFaceDetected [empA] sCool 2000 [10, 10] = .ok (sCool, false) :=
  no_match_preserves_state [empA] sCool 2000 [10, 10] "e1"
    (by decide) (by decide) (by decide) (by decide) (by decide)

/-- C6: if the resolver returns identity `e` while the controller is
cooling on a different identity `a`, the recognition callback for `e`
fires immediately (before `a`'s window expires) and a fresh 3 s cooldown
starts for `e`. -/
theorem identity_switch_fires
    (employees : List Employee) (s : ClockState) (now : ℚ) (d : List ℚ)
    (a : String) (e : Employee) (dsq : ℚ)
    (hcd : s.cooldownId = some a) (hne2 : e.id ≠ a)
    (hnow : now < s.cooldownUntil) (hpr : s.processingUntil = none)
    (hne : employees ≠ [])
    (hfind : findEmployeeByFaceD employees d = .ok (some (e, dsq))) :
    handleFaceDetected employees s now d =
      .ok ({ s with cooldownId := some e.id, cooldownUntil := now + 3000,
                    recognized := some e }, true) := by
  have hft := fireDueTimers_cooling s now a hcd hnow hpr
  have hg : ¬(s.processingUntil.isSome ∨ employees.length = 0) := by
    simp [hpr, List.length_eq_zero, hne]
  simp only [handleFaceDetected, hft, if_neg hg, hfind]
  rw [if_neg (by simp [hcd]; exact fun h => hne2 h.symm)]

theorem identity_switch_fires_witness :
    handleFaceDetected [empA, empB] sCool 1000 [10, 10] =
      .ok ({ sCool with cooldownId := some empB.id, cooldownUntil := 1000 + 3000,
                        recognized := some empB }, true) :=
  identity_switch_fires [empA, empB] sCool 1000 [10, 10] "e1" empB 0
    (by decide) (by decide) (by decide) (by decide) (by decide) (by decide)

theorem resolvesTo_elim (employees : List Employee) (d : List ℚ) (id : String)
    (h : resolvesTo employees d id = true) :
    ∃ e dsq, findEmployeeByFaceD employees d = .ok (some (e, dsq)) ∧ e.id = id := by
  unfold resolvesTo at h
  cases hfd : findEmployeeByFaceD employees d with
  | error msg => rw [hfd] at h; simp at h
  | ok o =>
    cases o with
    | none => rw [hfd] at h; simp at h
    | some p =>
      obtain ⟨e, dsq⟩ := p
      rw [hfd] at h
      simp only [beq_iff_eq] at h
      exact ⟨e, dsq, rfl, h⟩

/-- While cooling on `id` and not processing, any run of detections that
all resolve to `id` strictly before the cooldown deadline is entirely
suppressed: the state is unchanged and the callback never fires. -/
theorem suppressedRun (employees : List Employee) (id : String) (evs : List (ℚ × List ℚ)) :
    ∀ (s : ClockState), s.cooldownId = some id → s.processingUntil = none →
      employees ≠ [] →
      (∀ p ∈ evs, resolvesTo employees p.2 id = true ∧ p.1 < s.cooldownUntil) →
      runDetections employees s evs = .ok (s, 0) := by
  induction evs with
  | nil => intro s _ _ _ _; rfl
  | cons p rest ih =>
    obtain ⟨now, d⟩ := p
    intro s hcd hpr hne hev
    obtain ⟨e, dsq, hfd, heid⟩ :=
      resolvesTo_elim employees d id (hev (now, d) (List.mem_cons_self _ _)).1
    have hnow := (hev (now, d) (List.mem_cons_self _ _)).2
    have hft := fireDueTimers_cooling s now id hcd hnow hpr
    have hg : ¬(s.processingUntil.isSome ∨ employees.length = 0) := by
      simp [hpr, List.length_eq_zero, hne]
    have hstep : handleFaceDetected employees s now d = .ok (s, false) := by
      simp only [handleFaceDetected, hft, if_neg hg, hfd]
      rw [if_pos (by rw [hcd, heid])]
    have hrest2 : ∀ q ∈ rest, resolvesTo employees q.2 id = true ∧ q.1 < s.cooldownUntil :=
      fun q hq => hev q (List.mem_cons_of_mem _ hq)
    simp [runDetections, hstep, ih s hcd hpr hne hrest2]

/-- C5: starting with no cooldown and not processing, a detection
resolving to `id` followed by any further detections that resolve to
`id` within the 3 s window fires the recognition callback exactly once;
and `handleRegisterPoint` (recording a clock event) performs the
explicit consume — it clears the cooldown, which is the only other way,
besides window expiry, that the callback can fire again. -/
theorem cooldown_idempotence
    (employees : List Employee) (id : String) (s0 : ClockState) (t0 : ℚ) (d0 : List ℚ)
    (rest : List (ℚ × List ℚ))
    (hcd : s0.cooldownId = none) (hpr : s0.processingUntil = none) (hne : employees ≠ [])
    (h0 : resolvesTo employees d0 id = true)
    (hrest : ∀ p ∈ rest, resolvesTo employees p.2 id = true ∧ p.1 < t0 + 3000) :
    (runDetections employees s0 ((t0, d0) :: rest)).map Prod.snd = .ok 1 ∧
    ∀ (s : ClockState) (now : ℚ) (ty : RType) (emp : Employee),
      s.processingUntil = none → s.recognized = some emp →
      (handleRegisterPoint s now ty).cooldownId = none := by
  constructor
  · obtain ⟨e, dsq, hfd, heid⟩ := resolvesTo_elim employees d0 id h0
    have hft := fireDueTimers_idle s0 t0 hcd hpr
    have hg : ¬(s0.processingUntil.isSome ∨ employees.length = 0) := by
      simp [hpr, List.length_eq_zero, hne]
    have hstep : handleFaceDetected employees s0 t0 d0 =
        .ok ({ s0 with cooldownId := some e.id, cooldownUntil := t0 + 3000,
                       recognized := some e }, true) := by
      simp only [handleFaceDetected, hft, if_neg hg, hfd]
      rw [if_neg (by simp [hcd])]
    have hsup := suppressedRun employees id rest
      { s0 with cooldownId := some e.id, cooldownUntil := t0 + 3000, recognized := some e }
      (by simp [heid]) (by simp [hpr]) hne (by simpa using hrest)
    simp [runDetections, hstep, hsup, Except.map]
  · intro s now ty emp hp hr
    cases hc : s.cooldownId with
    | none => simp [handleRegisterPoint, fireDueTimers, hc, hp, hr]
    | some cid =>
      by_cases hle : s.cooldownUntil ≤ now <;>
        simp [handleRegisterPoint, fireDueTimers, hc, hp, hr, hle]

theorem cooldown_idempotence_witness :
    (runDetections [empA] clockState0
        ((0, [0, 0]) :: [(1000, [0, 0]), (2000, [0, 0])])).map Prod.snd = .ok 1 ∧
    (handleRegisterPoint sCool 5000 RType.entrada).cooldownId = none := by
  have h := cooldown_idempotence [empA] "e1" clockState0 0 [0, 0]
    [(1000, [0, 0]), (2000, [0, 0])] rfl rfl (by decide) (by decide) (by decide)
  exact ⟨h.1, h.2 sCool 5000 RType.entrada empA rfl rfl⟩

/-- C8: after a clock event is recorded through `handleRegisterPoint`
(which clears the cooldown and appends the record), every face detection
strictly inside the following 2 s processing window is ignored entirely:
the `isProcessing` guard returns before any resolution, so the state is
unchanged, the callback does not fire, and no resolver error can even
surface. -/
theorem processing_window_blocks
    (s : ClockState) (tr : ℚ) (ty : RType) (emp : Employee)
    (hpr : s.processingUntil = none) (hrec : s.recognized = some emp) :
    (handleRegisterPoint s tr ty).cooldownId = none ∧
    (handleRegisterPoint s tr ty).processingUntil = some (tr + 2000) ∧
    (handleRegisterPoint s tr ty).recognized = some emp ∧
    (handleRegisterPoint s tr ty).records = ⟨emp.id, emp.name, ty, tr⟩ :: s.records ∧
    ∀ (employees : List Employee) (now : ℚ) (d : List ℚ), now < tr + 2000 →
      handleFaceDetected employees (handleRegisterPoint s tr ty) now d =
        .ok (handleRegisterPoint s tr ty, false) := by
  have hbase : (handleRegisterPoint s tr ty).cooldownId = none ∧
      (handleRegisterPoint s tr ty).processingUntil = some (tr + 2000) ∧
      (handleRegisterPoint s tr ty).recognized = some emp ∧
      (handleRegisterPoint s tr ty).records = ⟨emp.id, emp.name, ty, tr⟩ :: s.records := by
    cases hc : s.cooldownId with
    | none => simp [handleRegisterPoint, fireDueTimers, hc, hpr, hrec]
    | some cid =>
      by_cases hle : s.cooldownUntil ≤ tr <;>
        simp [handleRegisterPoint, fireDueTimers, hc, hpr, hrec, hle]
  refine ⟨hbase.1, hbase.2.1, hbase.2.2.1, hbase.2.2.2, ?_⟩
  intro employees now d hlt
  have hft : fireDueTimers now (handleRegisterPoint s tr ty) = handleRegisterPoint s tr ty := by
    simp [fireDueTimers, hbase.1, hbase.2.1, not_le.mpr hlt]
  simp [handleFaceDetected, hft, hbase.2.1]

theorem processing_window_blocks_witness :
    handleFaceDetected [empA] (handleRegisterPoint sCool 5000 RType.entrada) 6000 [1] =
      .ok (handleRegisterPoint sCool 5000 RType.entrada, false) :=
  (processing_window_blocks sCool 5000 RType.entrada empA rfl rfl).2.2.2.2
    [empA] 6000 [1] (by decide)

/-- Source `EmployeeContext.tsx` lines 100–105, `getLastRecordForEmployee`:
filter the records by employee id, sort descending by timestamp
(comparator `b.timestamp - a.timestamp`), and return the first element
or `null`.  JS `Array.prototype.sort` is stable and any two stable sorts
under the same comparator produce the same list, so the stable,
structurally-recursive `insertionSort` is used. -/
def getLastRecordForEmployee (timeRecords : List TimeRecord) (employeeId : String) :
    Option TimeRecord :=
  (List.insertionSort (fun a b => b.timestamp ≤ a.timestamp)
    (timeRecords.filter (fun r => r.employeeId == employeeId))).head?

instance : IsTotal TimeRecord (fun a b => b.timestamp ≤ a.timestamp) :=
  ⟨fun a b => le_total b.timestamp a.timestamp⟩

instance : IsTrans TimeRecord (fun a b => b.timestamp ≤ a.timestamp) :=
  ⟨fun _ _ _ h1 h2 => le_trans h2 h1⟩

/-- C9: `getLastRecordForEmployee` returns `null` exactly when the
employee has no records, and otherwise returns one of that employee's
own records carrying the maximal timestamp among them. -/
theorem getLastRecord_spec (timeRecords : List TimeRecord) (employeeId : String) :
    (getLastRecordForEmployee timeRecords employeeId = none ↔
      ∀ r ∈ timeRecords, r.employeeId ≠ employeeId) ∧
    ∀ r, getLastRecordForEmployee timeRecords employeeId = some r →
      r.employeeId = employeeId ∧ r ∈ timeRecords ∧
      ∀ r' ∈ timeRecords, r'.employeeId = employeeId → r'.timestamp ≤ r.timestamp := by
  unfold getLastRecordForEmployee
  set F := timeRecords.filter (fun r => r.employeeId == employeeId) with hF
  set L := List.insertionSort (fun a b : TimeRecord => b.timestamp ≤ a.timestamp) F with hLd
  have hperm : L.Perm F :=
    List.perm_insertionSort (fun a b : TimeRecord => b.timestamp ≤ a.timestamp) F
  have hsorted : List.Sorted (fun a b : TimeRecord => b.timestamp ≤ a.timestamp) L :=
    List.sorted_insertionSort (fun a b : TimeRecord => b.timestamp ≤ a.timestamp) F
  constructor
  · constructor
    · intro h r hr hid
      have hnil : L = [] := by
        cases hLc : L with
        | nil => rfl
        | cons x t => rw [hLc] at h; simp at h
      have hFnil : F = [] := by
        rw [hnil] at hperm
        exact hperm.symm.eq_nil
      have hrF : r ∈ F := List.mem_filter.mpr ⟨hr, by simp [hid]⟩
      rw [hFnil] at hrF
      simp at hrF
    · intro h
      have hFnil : F = [] := by
        rw [hF]
        apply List.filter_eq_nil_iff.mpr
        intro a ha
        simp [h a ha]
      have hLnil : L = [] := by
        rw [hFnil] at hperm
        exact hperm.eq_nil
      rw [hLnil]
      rfl
  · intro r hr
    cases hLc : L with
    | nil => rw [hLc] at hr; simp at hr
    | cons x t =>
      rw [hLc] at hr
      have hxr : x = r := by simpa using hr
      subst hxr
      have hxF : x ∈ F := hperm.mem_iff.mp (by rw [hLc]; exact List.mem_cons_self _ _)
      have hxid : x.employeeId = employeeId := by simpa using (List.mem_filter.mp hxF).2
      have hxmem : x ∈ timeRecords := (List.mem_filter.mp hxF).1
      refine ⟨hxid, hxmem, ?_⟩
      intro r' hr' hid'
      have hr'F : r' ∈ F := List.mem_filter.mpr ⟨hr', by simp [hid']⟩
      have hr'L : r' ∈ L := hperm.mem_iff.mpr hr'F
      rw [hLc] at hr'L
      rcases List.mem_cons.mp hr'L with rfl | hmem
      · exact le_rfl
      · rw [hLc] at hsorted
        exact (List.sorted_cons.mp hsorted).1 r' hmem

/-- Sample records of `empA` (`e1`) and `empB` (`e2`). -/
def rA1 : TimeRecord := ⟨"r1", "e1", "Alice", RType.entrada, 100, none⟩

/-- A later record of `empA`. -/
def rA2 : TimeRecord := ⟨"r2", "e1", "Alice", RType.saida, 500, none⟩

/-- A record of `empB`, latest overall. -/
def rB1 : TimeRecord := ⟨"r3", "e2", "Bruno", RType.entrada, 900, none⟩

theorem getLastRecord_spec_witness :
    getLastRecordForEmployee [rA1, rB1, rA2] "e1" = some rA2 ∧ rA2.employeeId = "e1" ∧
    rA2 ∈ [rA1, rB1, rA2] ∧ rA1.timestamp ≤ rA2.timestamp := by
  have h := (getLastRecord_spec [rA1, rB1, rA2] "e1").2 rA2 (by decide)
  exact ⟨by decide, h.1, h.2.1, h.2.2 rA1 (by decide) (by decide)⟩

/-- The two state lists held by `EmployeeProvider`
(`EmployeeContext.tsx` lines 22–44). -/
structure ProviderState where
  employees : List Employee
  timeRecords : List TimeRecord
deriving DecidableEq

/-- Source `EmployeeContext.tsx` lines 64–66, `removeEmployee(id)`:
`setEmployees(prev => prev.filter(emp => emp.id !== id))`; the
`timeRecords` state is untouched. -/
def removeEmployee (s : ProviderState) (id : String) : ProviderState :=
  { s with employees := s.employees.filter (fun emp => emp.id != id) }

/-- C10: `removeEmployee` keeps the time records unchanged, removes
exactly the employees whose id equals the given id (none of them
remains, every other occurrence is kept with its multiplicity), and
preserves the relative order of the remaining employees (sublist). -/
theorem removeEmployee_spec (s : ProviderState) (id : String) :
    (removeEmployee s id).timeRecords = s.timeRecords ∧
    (∀ e ∈ (removeEmployee s id).employees, e.id ≠ id) ∧
    List.Sublist (removeEmployee s id).employees s.employees ∧
    ∀ e : Employee, e.id ≠ id →
      (removeEmployee s id).employees.count e = s.employees.count e := by
  refine ⟨rfl, ?_, List.filter_sublist _, ?_⟩
  · intro e he
    simpa using (List.mem_filter.mp he).2
  · intro e hne
    exact List.count_filter (by simpa using hne)

theorem removeEmployee_spec_witness :
    (removeEmployee ⟨[empA, empB], [rA1]⟩ "e1").timeRecords = [rA1] ∧
    List.Sublist (removeEmployee ⟨[empA, empB], [rA1]⟩ "e1").employees [empA, empB] ∧
    (removeEmployee ⟨[empA, empB], [rA1]⟩ "e1").employees.count empB =
      ([empA, empB] : List Employee).count empB := by
  have h := removeEmployee_spec ⟨[empA, empB], [rA1]⟩ "e1"
  exact ⟨h.1, h.2.2.1, h.2.2.2 empB (by decide)⟩

end FaceClock
